import Mathlib

/-!
Verification development for the oms-go order management system core.

Shallow embedding conventions:
- Go float64 price/quantity scalars are modelled as exact rationals.
- Go int64 identifiers and counters are modelled as Int.
- Go time.Time values are modelled as an Int timestamp; the comparator
  CreatedAt.Before is the strict order on Int.
- The Go string-backed enums (Side, OrderType, OrderStatus, EventType) are
  modelled as String, so the zero value of an enum field is the empty string,
  exactly as in Go.
- Maps are modelled as association lists with overwrite-on-insert; mutation
  through a shared pointer is modelled by replacing the value stored under the
  key through which the pointer was obtained.
- I/O failure of an append is modelled by an explicit Boolean outcome flag.
-/

deriving instance DecidableEq for Except

namespace Oms

namespace Domain

/-- Go type Side string. -/
abbrev Side := String

def Buy : Side := "BUY"

def Sell : Side := "SELL"

/-- Go type OrderType string. -/
abbrev OrderType := String

def Limit : OrderType := "LIMIT"

def Market : OrderType := "MARKET"

def IOC : OrderType := "IOC"

/-- Go type OrderStatus string. -/
abbrev OrderStatus := String

def Submitted : OrderStatus := "SUBMITTED"

def PartFilled : OrderStatus := "PART_FILLED"

def Filled : OrderStatus := "FILLED"

def Canceled : OrderStatus := "CANCELED"

def Rejected : OrderStatus := "REJECTED"

/-- internal/domain Order struct. -/
structure Order where
  id : Int
  userId : Int
  symbol : String
  side : Side
  type : OrderType
  price : ℚ
  quantity : ℚ
  filledQty : ℚ
  status : OrderStatus
  createdAt : Int
deriving DecidableEq, Inhabited

/-- internal/domain Trade struct. -/
structure Trade where
  tradeId : Int
  orderId : Int
  qty : ℚ
  price : ℚ
  userId : Int
  symbol : String
  side : Side
  isMaker : Bool
deriving DecidableEq, Inhabited

/-- internal/domain Position struct. -/
structure Position where
  userId : Int
  symbol : String
  qty : ℚ
  entryPrice : ℚ
  leverage : ℚ
  margin : ℚ
deriving DecidableEq, Inhabited

/-- internal/engine LiquidationOrder struct. -/
structure LiquidationOrder where
  orderId : Int
  userId : Int
  symbol : String
  side : Side
  quantity : ℚ
  orderType : OrderType
  timeInForce : String
  reason : String
deriving DecidableEq, Inhabited

end Domain

/-- The helper min(a, b float64) of the matching engine: if a less than b then
a else b. Extensionally equal to min on rationals. -/
def goMin (a b : ℚ) : ℚ :=
  if a < b then a else b

/-- The helper abs(v float64) of the service package: if v negative then -v
else v. Extensionally equal to the absolute value on rationals. -/
def goAbs (v : ℚ) : ℚ :=
  if v < 0 then -v else v

namespace Memory

open Domain

/-- internal/memory OrderBook: a map from order id to order, modelled as an
association list with overwrite-on-insert (Add keys by the order id). -/
structure OrderBook where
  orders : List (Int × Order)
deriving DecidableEq, Inhabited

def OrderBook.new : OrderBook := ⟨[]⟩

/-- OrderBook.Add stores the order under its own id, overwriting any previous
binding for that id. -/
def OrderBook.add (b : OrderBook) (o : Order) : OrderBook :=
  ⟨(o.id, o) :: b.orders.filter (fun kv => !(kv.1 == o.id))⟩

/-- OrderBook.Get looks the order up by id. -/
def OrderBook.get (b : OrderBook) (id : Int) : Option Order :=
  b.orders.lookup id

/-- Models Go mutation of an order in place through the pointer returned by
Get(id): the value stored under that id is replaced, no key changes. -/
def OrderBook.mutate (b : OrderBook) (id : Int) (o : Order) : OrderBook :=
  ⟨b.orders.map (fun kv => if kv.1 == id then (kv.1, o) else kv)⟩

/-- internal/memory key(uid, symbol) = symbol + ":" + FormatInt(uid, 10). -/
def PositionBook.key (uid : Int) (symbol : String) : String :=
  symbol ++ ":" ++ toString uid

/-- internal/memory PositionBook: a map from key(uid, symbol) to position,
modelled as an association list with overwrite-on-insert. -/
structure PositionBook where
  positions : List (String × Position)
deriving DecidableEq, Inhabited

def PositionBook.new : PositionBook := ⟨[]⟩

/-- PositionBook.Get looks up by key(uid, symbol). -/
def PositionBook.get (b : PositionBook) (uid : Int) (symbol : String) :
    Option Position :=
  b.positions.lookup (PositionBook.key uid symbol)

/-- PositionBook.Save stores the position under key(p.UserID, p.Symbol),
overwriting any previous binding for that key. -/
def PositionBook.save (b : PositionBook) (p : Position) : PositionBook :=
  ⟨(PositionBook.key p.userId p.symbol, p) ::
    b.positions.filter (fun kv => !(kv.1 == PositionBook.key p.userId p.symbol))⟩

end Memory

namespace Service

open Domain Memory

/-- internal/service signedQty: negate the quantity for a SELL side. -/
def signedQty (side : Side) (qty : ℚ) : ℚ :=
  if side = Sell then -qty else qty

/-- internal/service PositionService.OnTrade, as its net effect on the
position book.  If no position exists a new one is created with margin
abs(qty) * price / leverage; otherwise the weighted-average entry price is
recomputed, the quantity is added, and the margin is left untouched.  The
code applies the weighted-average formula unconditionally: it does not branch
on the direction of the incoming fill.  (With a non-nil event bus the update
reaches the book through a POSITION_UPDATED event applied by the bus to the
same book; with a nil bus it is saved directly.  Either way the update lands
under key(p.UserID, p.Symbol).) -/
def PositionService.onTrade (book : PositionBook) (userID : Int)
    (symbol : String) (qty price leverage : ℚ) : PositionBook :=
  match book.get userID symbol with
  | none =>
      let notional := goAbs qty * price
      let margin := notional / leverage
      book.save ⟨userID, symbol, qty, price, leverage, margin⟩
  | some p =>
      book.save
        { p with
          entryPrice := (p.entryPrice * p.qty + price * qty) / (p.qty + qty)
          qty := p.qty + qty }

/-- internal/service MaintenanceMarginRate = 0.005, an exact 1/200 here (the
spec fixes the constant 0.5 percent; the Go source stores it as float64). -/
def MaintenanceMarginRate : ℚ := 5 / 1000

/-- internal/service LiquidationService.Check: liquidate iff
margin + (markPrice - entryPrice) * qty is at most abs(qty) * markPrice * MMR. -/
def LiquidationService.check (p : Position) (markPrice : ℚ) : Bool :=
  let notional := goAbs p.qty * markPrice
  let mm := notional * MaintenanceMarginRate
  let upnl := (markPrice - p.entryPrice) * p.qty
  let equity := p.margin + upnl
  decide (equity ≤ mm)

/-- internal/service LiquidationService.Execute: the IOC market order sent to
the matching gateway.  The fresh id drawn from the shared counter generator is
not part of any claim and is modelled as 0. -/
def LiquidationService.executeOrder (p : Position) : LiquidationOrder :=
  { orderId := 0
    userId := p.userId
    symbol := p.symbol
    side := if p.qty < 0 then Buy else Sell
    quantity := goAbs p.qty
    orderType := Market
    timeInForce := "IOC"
    reason := "LIQUIDATION" }

/-- internal/service OrderService.OnTrade.  Looks the order up by
trade.OrderID; when present its filled quantity grows by the trade quantity
and the status becomes FILLED once filled quantity reaches quantity (there is
no other status assignment).  Control then falls through unconditionally to
the position update, which reads o.Side: when the lookup failed o is a nil
pointer and that read panics, modelled as none.  After the position update the
liquidation check runs against the trade price and may produce an IOC
liquidation order. -/
def OrderService.onTrade (book : OrderBook) (pb : PositionBook)
    (t : Trade) : Option (OrderBook × PositionBook × Option LiquidationOrder) :=
  match book.get t.orderId with
  | none => none
  | some o =>
      let o' :=
        { o with
          filledQty := o.filledQty + t.qty
          status := if o.quantity ≤ o.filledQty + t.qty then Filled else o.status }
      let book' := book.mutate t.orderId o'
      let pb' := PositionService.onTrade pb t.userId t.symbol
        (signedQty o.side t.qty) t.price 10
      let liq :=
        match pb'.get t.userId t.symbol with
        | some p =>
            if LiquidationService.check p t.price then
              some (LiquidationService.executeOrder p)
            else none
        | none => none
      some (book', pb', liq)

/-- One PositionService.OnTrade call, as data: the arguments of the call. -/
structure Fill where
  userId : Int
  symbol : String
  qty : ℚ
  price : ℚ
  leverage : ℚ
deriving DecidableEq, Inhabited

/-- The side conditions the reachability claim places on every call. -/
def Fill.good (f : Fill) : Prop :=
  0 < f.price ∧ 0 < f.leverage ∧ f.qty ≠ 0

instance (f : Fill) : Decidable f.good := by
  unfold Fill.good
  infer_instance

/-- Folding a sequence of PositionService.OnTrade calls over a book. -/
def applyFills (book : PositionBook) (fills : List Fill) : PositionBook :=
  fills.foldl
    (fun b f => PositionService.onTrade b f.userId f.symbol f.qty f.price f.leverage)
    book

/-- Same direction in the sense of the spec: both signs positive or both
signs negative. -/
def sameSign (a b : ℚ) : Prop :=
  (0 < a ∧ 0 < b) ∨ (a < 0 ∧ b < 0)

/-- A trace of PositionService.OnTrade calls starting from a given book in
which every call satisfies the side conditions and every call that lands on an
existing position is in the same direction as that position. -/
inductive SameDirTrace : PositionBook → List Fill → Prop
  | nil (b : PositionBook) : SameDirTrace b []
  | cons (b : PositionBook) (f : Fill) (fs : List Fill)
      (hgood : f.good)
      (hdir : ∀ p, b.get f.userId f.symbol = some p → sameSign p.qty f.qty)
      (htail : SameDirTrace
        (PositionService.onTrade b f.userId f.symbol f.qty f.price f.leverage) fs) :
      SameDirTrace b (f :: fs)

end Service

namespace Engine

open Domain

/-- The heap comparator of the engine PriceHeap: equal prices compare by
creation time (earlier first); otherwise bids put the highest price on top
and asks the lowest. -/
def heapLess (side : Side) (a b : Order) : Bool :=
  if a.price = b.price then decide (a.createdAt < b.createdAt)
  else if side = Buy then decide (b.price < a.price)
  else decide (a.price < b.price)

/-- Bounds-checked element swap; Go Swap is only invoked in bounds. -/
def swapIdx (a : Array Order) (i j : Nat) : Array Order :=
  if h1 : i < a.size then
    if h2 : j < a.size then a.swap ⟨i, h1⟩ ⟨j, h2⟩ else a
  else a

/-- Worker for container/heap up(h, j), with explicit fuel so the recursion
is structural and kernel-reducible. -/
def siftUpGo : Nat → Side → Array Order → Nat → Array Order
  | 0, _, a, _ => a
  | fuel + 1, side, a, j =>
    if (j - 1) / 2 = j then a
    else if heapLess side (a.getD j default) (a.getD ((j - 1) / 2) default) then
      siftUpGo fuel side (swapIdx a ((j - 1) / 2) j) ((j - 1) / 2)
    else a

/-- container/heap up(h, j): bubble the element at j towards the root while
it compares below its parent.  Each step moves from j to (j-1)/2, strictly
down when j is positive, so j + 1 units of fuel are never exhausted. -/
def siftUp (side : Side) (a : Array Order) (j : Nat) : Array Order :=
  siftUpGo (j + 1) side a j

/-- Worker for container/heap down(h, i, n), with explicit fuel so the
recursion is structural and kernel-reducible. -/
def siftDownGo : Nat → Side → Array Order → Nat → Nat → Array Order
  | 0, _, a, _, _ => a
  | fuel + 1, side, a, i, n =>
    if n ≤ 2 * i + 1 then a
    else if 2 * i + 2 < n ∧
        heapLess side (a.getD (2 * i + 2) default) (a.getD (2 * i + 1) default) then
      if heapLess side (a.getD (2 * i + 2) default) (a.getD i default) then
        siftDownGo fuel side (swapIdx a i (2 * i + 2)) (2 * i + 2) n
      else a
    else
      if heapLess side (a.getD (2 * i + 1) default) (a.getD i default) then
        siftDownGo fuel side (swapIdx a i (2 * i + 1)) (2 * i + 1) n
      else a

/-- container/heap down(h, i, n): push the element at i down towards the
leaves, always against the smaller child, stopping at index n.  The index
strictly increases below n on every step, so n units of fuel are never
exhausted. -/
def siftDown (side : Side) (a : Array Order) (i n : Nat) : Array Order :=
  siftDownGo n side a i n

/-- The engine PriceHeap: a binary heap of orders ordered by heapLess.
heap.Init on the empty backing slice of NewPriceHeap is a no-op. -/
structure PriceHeap where
  side : Side
  orders : Array Order
deriving DecidableEq, Inhabited

def PriceHeap.new (side : Side) : PriceHeap := ⟨side, #[]⟩

/-- heap.Push: append, then sift the new last element up. -/
def heapPush (h : PriceHeap) (o : Order) : PriceHeap :=
  ⟨h.side, siftUp h.side (h.orders.push o) h.orders.size⟩

/-- heap.Pop: swap the root with the last element, sift the new root down
over the shortened prefix, then remove and return the last element. -/
def heapPop (h : PriceHeap) : Order × PriceHeap :=
  let n := h.orders.size - 1
  let a := swapIdx h.orders 0 n
  let a2 := siftDown h.side a 0 n
  (a2.getD n default, ⟨h.side, a2.pop⟩)

/-- The engine OrderBook: one bid heap and one ask heap per symbol. -/
structure OrderBook where
  symbol : String
  bids : PriceHeap
  asks : PriceHeap
deriving DecidableEq, Inhabited

def OrderBook.new (symbol : String) : OrderBook :=
  ⟨symbol, PriceHeap.new Buy, PriceHeap.new Sell⟩

/-- The matching loop of OrderBook.Match, translated with explicit fuel.
Every iteration either stops, removes a maker from the opposing heap, or
exhausts the taker, so heap size + 1 units of fuel are never consumed; the
fuel only makes the recursion structural.  genTradeID builds a fresh
snowflake generator per call and draws a wall-clock id; trade ids are outside
the embedding and modelled as 0. -/
def matchLoop (fuel : Nat) (o : Order) (bs : PriceHeap) :
    Order × PriceHeap × List Trade :=
  match fuel with
  | 0 => (o, bs, [])
  | fuel + 1 =>
    if 0 < o.quantity ∧ 0 < bs.orders.size then
      let pr := heapPop bs
      let best := pr.1
      let bs1 := pr.2
      if o.side = Buy ∧ o.price < best.price then
        (o, heapPush bs1 best, [])
      else if o.side = Sell ∧ best.price < o.price then
        (o, heapPush bs1 best, [])
      else
        let fq := goMin o.quantity best.quantity
        let takerTrade : Trade :=
          ⟨0, o.id, fq, best.price, o.userId, o.symbol, o.side, false⟩
        let makerTrade : Trade :=
          ⟨0, best.id, fq, best.price, best.userId, best.symbol, best.side, true⟩
        let o2 := { o with quantity := o.quantity - fq }
        let best2 := { best with quantity := best.quantity - fq }
        let bs2 := if 0 < best2.quantity then heapPush bs1 best2 else bs1
        let r := matchLoop fuel o2 bs2
        (r.1, r.2.1, takerTrade :: makerTrade :: r.2.2)
    else (o, bs, [])

/-- The post-loop resting step of OrderBook.Match: a taker with remaining
quantity whose type is not IOC is pushed onto its own side's heap. -/
def OrderBook.rest (ob1 : OrderBook) (o2 : Order) : OrderBook :=
  if 0 < o2.quantity ∧ o2.type ≠ IOC then
    if o2.side = Buy then { ob1 with bids := heapPush ob1.bids o2 }
    else { ob1 with asks := heapPush ob1.asks o2 }
  else ob1

/-- OrderBook.Match: run the loop against the opposing heap, then rest the
remainder on its own side unless the order type is IOC.  Returns the updated
book, the taker as left by the in-place mutation, and the produced trades. -/
def OrderBook.Match (ob : OrderBook) (o : Order) :
    OrderBook × Order × List Trade :=
  let bookSide := if o.side = Buy then ob.asks else ob.bids
  let r := matchLoop (bookSide.orders.size + 1) o bookSide
  let ob1 :=
    if o.side = Buy then { ob with asks := r.2.1 } else { ob with bids := r.2.1 }
  (OrderBook.rest ob1 r.1, r.1, r.2.2)

/-- The taker-side trade record a single match step emits. -/
def mkTakerTrade (tkId tkUser : Int) (tkSym : String) (tkSide : Side)
    (maker : Order) (fq : ℚ) : Trade :=
  ⟨0, tkId, fq, maker.price, tkUser, tkSym, tkSide, false⟩

/-- The maker-side trade record a single match step emits. -/
def mkMakerTrade (maker : Order) (fq : ℚ) : Trade :=
  ⟨0, maker.id, fq, maker.price, maker.userId, maker.symbol, maker.side, true⟩

/-- Shape of the trade list produced by the matching loop for a taker with
the given static fields: the list is a sequence of steps, each step emitting
exactly two records, the taker-side record first and the maker-side record
second, both priced at the maker resting price and both for the fill
quantity min(taker remaining, maker remaining); the taker remaining then
shrinks by that fill. -/
inductive StepShape (tkId tkUser : Int) (tkSym : String) (tkSide : Side) :
    ℚ → List Trade → Prop
  | nil (q : ℚ) : StepShape tkId tkUser tkSym tkSide q []
  | step (q : ℚ) (maker : Order) (rest : List Trade)
      (h : StepShape tkId tkUser tkSym tkSide (q - goMin q maker.quantity) rest) :
      StepShape tkId tkUser tkSym tkSide q
        (mkTakerTrade tkId tkUser tkSym tkSide maker (goMin q maker.quantity) ::
          mkMakerTrade maker (goMin q maker.quantity) :: rest)

end Engine

namespace Snapshot

open Domain Memory

/-- Go type EventType string. -/
abbrev EventType := String

def EventOrderCreated : EventType := "ORDER_CREATED"

def EventOrderFilled : EventType := "ORDER_FILLED"

def EventOrderCanceled : EventType := "ORDER_CANCELED"

def EventTradeExecuted : EventType := "TRADE_EXECUTED"

def EventPositionOpened : EventType := "POSITION_OPENED"

def EventPositionUpdated : EventType := "POSITION_UPDATED"

def EventPositionClosed : EventType := "POSITION_CLOSED"

def EventLiquidation : EventType := "LIQUIDATION"

/-- The json.RawMessage payload of an event, modelled as the typed union the
publishers marshal into it.  A pointer field that Go leaves nil is none. -/
inductive EventData where
  | orderCreated (order : Option Order)
  | tradeExecuted (trade : Option Trade)
  | positionUpdated (position : Option Position) (reason : String)
  | liquidation (userId : Int) (symbol : String) (quantity price : ℚ)
      (reason : String)
deriving DecidableEq, Inhabited

/-- The content an event checksum covers: id, type, timestamp and data, the
checksum field itself excluded.  SHA-256 over the canonical JSON encoding is
modelled as this injective content tuple. -/
structure EventCore where
  id : Int
  type : EventType
  timestamp : Int
  data : EventData
deriving DecidableEq, Inhabited

/-- internal/snapshot Event. -/
structure Event where
  id : Int
  type : EventType
  timestamp : Int
  data : EventData
  checksum : EventCore
deriving DecidableEq, Inhabited

/-- Event.calculateChecksum: hash of the record with the checksum excluded. -/
def Event.calculateChecksum (e : Event) : EventCore :=
  ⟨e.id, e.type, e.timestamp, e.data⟩

/-- Event.Verify: the stored checksum matches the recomputed one. -/
def Event.verify (e : Event) : Bool :=
  decide (e.checksum = e.calculateChecksum)

/-- NewEvent: build an event and stamp its checksum.  time.Now() is passed in
as the timestamp. -/
def Event.new (id : Int) (type : EventType) (timestamp : Int)
    (data : EventData) : Event :=
  let e : Event := ⟨id, type, timestamp, data, default⟩
  { e with checksum := e.calculateChecksum }

/-- internal/snapshot EventStore: sequence counter plus the append-only log.
The file handle and directory are outside the embedding. -/
structure EventStore where
  sequence : Int
  log : List Event
  closed : Bool
deriving DecidableEq, Inhabited

/-- EventStore.Append.  The sequence counter is advanced and the checksum
recomputed before the write; ioOk models whether the write/flush/sync I/O
succeeds.  On failure the record does not reach the log but the counter stays
advanced (atomic.AddInt64 already ran). -/
def EventStore.append (es : EventStore) (e : Event) (ioOk : Bool) :
    Except String Event × EventStore :=
  if es.closed then (Except.error "event store is closed", es)
  else
    let e1 := { e with id := es.sequence + 1 }
    let e2 := { e1 with checksum := e1.calculateChecksum }
    if ioOk then
      (Except.ok e2, { es with sequence := es.sequence + 1, log := es.log ++ [e2] })
    else
      (Except.error "failed to write event", { es with sequence := es.sequence + 1 })

/-- internal/snapshot SystemState: order map, position map, last event id and
timestamp. -/
structure SystemState where
  orderBook : OrderBook
  positionBook : PositionBook
  lastEventID : Int
  timestamp : Int
deriving DecidableEq, Inhabited

def SystemState.new : SystemState :=
  ⟨OrderBook.new, PositionBook.new, 0, 0⟩

/-- SystemState.ApplyEvent: the last event id and timestamp are overwritten
unconditionally, then the typed payload is applied.  ORDER_CREATED adds the
carried order; POSITION_OPENED/UPDATED/CLOSED saves the carried position;
TRADE_EXECUTED and LIQUIDATION leave the books untouched; unknown types are
skipped. -/
def SystemState.applyEvent (ss : SystemState) (e : Event) : SystemState :=
  let ss1 := { ss with lastEventID := e.id, timestamp := e.timestamp }
  if e.type = EventOrderCreated then
    match e.data with
    | EventData.orderCreated (some o) =>
        { ss1 with orderBook := ss1.orderBook.add o }
    | _ => ss1
  else if e.type = EventPositionOpened ∨ e.type = EventPositionUpdated ∨
      e.type = EventPositionClosed then
    match e.data with
    | EventData.positionUpdated (some p) _ =>
        { ss1 with positionBook := ss1.positionBook.save p }
    | _ => ss1
  else ss1

/-- internal/snapshot EventBus.Publish: apply the event to the in-memory
state first, then append it to the store; an append failure surfaces as an
error with the state mutation already performed and not rolled back. -/
def EventBus.publish (st : SystemState) (es : EventStore) (e : Event)
    (ioOk : Bool) : Except String Unit × SystemState × EventStore :=
  let st1 := st.applyEvent e
  match es.append e ioOk with
  | (Except.ok _, es1) => (Except.ok (), st1, es1)
  | (Except.error m, es1) => (Except.error m, st1, es1)

/-- The content a snapshot state checksum covers: last event id, timestamp,
orders and positions.  SHA-256 of the marshalled struct is modelled as this
injective content tuple. -/
structure StateCore where
  lastEventID : Int
  timestamp : Int
  orders : List (Int × Order)
  positions : List (String × Position)
deriving DecidableEq, Inhabited

/-- SystemState.Checksum over the full serialized content. -/
def SystemState.checksum (ss : SystemState) : StateCore :=
  ⟨ss.lastEventID, ss.timestamp, ss.orderBook.orders, ss.positionBook.positions⟩

/-- internal/snapshot Snapshot: sequence id, timestamp, order and position
maps and the stored state checksum. -/
structure Snapshot where
  sequenceID : Int
  timestamp : Int
  orders : List (Int × Order)
  positions : List (String × Position)
  checksum : StateCore
deriving DecidableEq, Inhabited

/-- The state checksum a verifying loader would recompute for a snapshot:
the checksum of the state the snapshot describes. -/
def Snapshot.recomputedChecksum (s : Snapshot) : StateCore :=
  ⟨s.sequenceID, s.timestamp, s.orders, s.positions⟩

/-- SnapshotManager.loadSnapshot: decode the snapshot and return it.  The
stored checksum field is NOT recomputed or compared (the source leaves the
verification as a production comment). -/
def SnapshotManager.loadSnapshot (s : Snapshot) : Except String Snapshot :=
  Except.ok s

/-- SnapshotManager.LoadBySequence over the set of retained snapshots. -/
def SnapshotManager.loadBySequence (snaps : List Snapshot) (sid : Int) :
    Except String Snapshot :=
  match snaps.find? (fun s => s.sequenceID == sid) with
  | some s => SnapshotManager.loadSnapshot s
  | none => Except.error "snapshot not found"

/-- EventStore.ReadFrom: scan the log, verify the checksum of every record,
fail on the first mismatch, and keep the records with id above the given
sequence id. -/
def EventStore.readFrom (log : List Event) (sequenceID : Int) :
    Except String (List Event) :=
  match log with
  | [] => Except.ok []
  | e :: rest =>
    if e.verify then
      match EventStore.readFrom rest sequenceID with
      | Except.ok es =>
          Except.ok (if sequenceID < e.id then e :: es else es)
      | Except.error m => Except.error m
    else Except.error "event failed checksum verification"

/-- EventStore.ReadAll = ReadFrom(0). -/
def EventStore.readAll (log : List Event) : Except String (List Event) :=
  EventStore.readFrom log 0

/-- The snapshot loop of ReplayEngine.Verify: each listed snapshot is loaded
by sequence id; the loaded value is discarded. -/
def verifySnapshotsLoop (all : List Snapshot) :
    List Snapshot → Except String Unit
  | [] => Except.ok ()
  | info :: rest =>
    match SnapshotManager.loadBySequence all info.sequenceID with
    | Except.ok _ => verifySnapshotsLoop all rest
    | Except.error m => Except.error m

/-- ReplayEngine.Verify: read all events (which verifies each record
checksum), re-verify each event checksum, then load each retained snapshot;
the loaded snapshots are not checked further. -/
def ReplayEngine.verify (log : List Event) (snaps : List Snapshot) :
    Except String Unit :=
  match EventStore.readAll log with
  | Except.error m => Except.error m
  | Except.ok events =>
    match events.find? (fun e => !e.verify) with
    | some _ => Except.error "event failed checksum verification"
    | none => verifySnapshotsLoop snaps snaps

end Snapshot

/-! Concrete instances used by the scenario theorems, the counterexamples and
the witnesses. -/

namespace Inputs

open Domain Engine Memory Service Snapshot

/-- Scenario S1 maker: SELL BTCUSDT qty 1 at 30000. -/
def s1Sell : Order := ⟨1, 100, "BTCUSDT", Sell, Limit, 30000, 1, 0, Submitted, 0⟩

/-- Scenario S1 taker: BUY BTCUSDT qty 1 at 31000. -/
def s1Buy : Order := ⟨2, 200, "BTCUSDT", Buy, Limit, 31000, 1, 0, Submitted, 1⟩

/-- The book after S1's maker rested: s1Sell alone on the ask side. -/
def s1Book : Engine.OrderBook := ⟨"BTCUSDT", ⟨Buy, #[]⟩, ⟨Sell, #[s1Sell]⟩⟩

/-- A MARKET buy with the conventional price 0 and nothing on the other side. -/
def mktBuy : Order := ⟨3, 300, "BTCUSDT", Buy, Market, 0, 1, 0, Submitted, 0⟩

/-- A resting SELL maker at price 100. -/
def askMaker : Order := ⟨4, 400, "BTCUSDT", Sell, Limit, 100, 1, 0, Submitted, 0⟩

/-- A MARKET buy taker with the conventional price 0 submitted against
askMaker. -/
def mktBuyTaker : Order := ⟨5, 500, "BTCUSDT", Buy, Market, 0, 1, 0, Submitted, 1⟩

/-- An IOC buy submitted against an empty opposing queue. -/
def iocBuy : Order := ⟨6, 600, "BTCUSDT", Buy, IOC, 100, 1, 0, Submitted, 0⟩

/-- The book holding only askMaker on the ask side. -/
def askBook : Engine.OrderBook := ⟨"BTCUSDT", PriceHeap.new Buy, ⟨Sell, #[askMaker]⟩⟩

/-- An order of quantity 2 with nothing filled yet. -/
def openOrder : Order := ⟨1, 7, "BTCUSDT", Buy, Limit, 100, 2, 0, Submitted, 0⟩

/-- A memory book holding openOrder. -/
def openBook : Memory.OrderBook := ⟨[(1, openOrder)]⟩

/-- A fill of half of openOrder. -/
def halfTrade : Trade := ⟨0, 1, 1, 100, 7, "BTCUSDT", Buy, false⟩

/-- A trade whose order id is absent from every book. -/
def strayTrade : Trade := ⟨0, 99, 1, 100, 7, "BTCUSDT", Buy, false⟩

/-- Two well-formed fills: open long 1 at 100, then sell 2 at 10 on the same
key.  Both satisfy the side conditions of the reachability claim. -/
def flipFills : List Service.Fill :=
  [⟨1, "BTCUSDT", 1, 100, 10⟩, ⟨1, "BTCUSDT", -2, 10, 10⟩]

/-- Two same-direction fills: open long 1 at 100, then add 2 at 200. -/
def longFills : List Service.Fill :=
  [⟨1, "BTCUSDT", 1, 100, 10⟩, ⟨1, "BTCUSDT", 2, 200, 10⟩]

/-- A position and a book for the position-service witnesses. -/
def longPos : Position := ⟨1, "BTCUSDT", 2, 100, 10, 20⟩

def longPosBook : PositionBook := Memory.PositionBook.new.save longPos

/-- Scenario S5's position: user 100, long 2 BTCUSDT from 40000 at 10x,
margin 8000. -/
def s5Pos : Position := ⟨100, "BTCUSDT", 2, 40000, 10, 8000⟩

/-- An initial system state with a nonzero cursor, for the publish claims. -/
def st0 : SystemState := ⟨Memory.OrderBook.new, Memory.PositionBook.new, 7, 3⟩

/-- A fresh open event store. -/
def es0 : EventStore := ⟨0, [], false⟩

/-- An order carried by an ORDER_CREATED event. -/
def evOrder : Order := ⟨11, 7, "BTCUSDT", Buy, Limit, 100, 1, 0, Submitted, 5⟩

/-- The ORDER_CREATED event the order service publishes for evOrder: id 0
(the store assigns it), timestamp 99. -/
def ev0 : Event :=
  Event.new 0 EventOrderCreated 99 (EventData.orderCreated (some evOrder))

/-- A snapshot whose stored checksum does not match its recomputed state
checksum. -/
def badSnap : Snapshot :=
  ⟨1, 0, [], [], ⟨2, 0, [], []⟩⟩

/-- A log with one intact event. -/
def goodLog : List Event := [Event.new 1 EventOrderCreated 5 (EventData.orderCreated none)]

/-- The same event with its stored checksum corrupted. -/
def badLog : List Event :=
  [{ Event.new 1 EventOrderCreated 5 (EventData.orderCreated none) with
      checksum := ⟨2, EventOrderCreated, 5, EventData.orderCreated none⟩ }]

end Inputs

/-! ### Helper lemmas about the matching engine -/

namespace Engine

open Domain

theorem matchLoop_stop (fuel : Nat) (o : Order) (bs : PriceHeap)
    (h : o.quantity ≤ 0 ∨ bs.orders.size = 0) :
    matchLoop fuel o bs = (o, bs, []) := by
  cases fuel with
  | zero => rfl
  | succ n =>
    have hg : ¬(0 < o.quantity ∧ 0 < bs.orders.size) := by
      intro hc
      rcases h with h | h
      · exact absurd hc.1 (not_lt.mpr h)
      · rw [h] at hc
        exact lt_irrefl 0 hc.2
    simp only [matchLoop, if_neg hg]

theorem heapPush_empty (sd : Side) (o : Order) :
    heapPush ⟨sd, #[]⟩ o = ⟨sd, #[o]⟩ := by
  unfold heapPush siftUp siftUpGo
  simp

theorem heapPop_singleton (sd : Side) (m : Order) :
    heapPop ⟨sd, #[m]⟩ = (m, ⟨sd, #[]⟩) := rfl

theorem matchLoop_taker_invariants (fuel : Nat) :
    ∀ (o : Order) (bs : PriceHeap),
      (matchLoop fuel o bs).1.side = o.side ∧
      (matchLoop fuel o bs).1.type = o.type := by
  induction fuel with
  | zero => exact fun o bs => ⟨rfl, rfl⟩
  | succ n ih =>
    intro o bs
    simp only [matchLoop]
    by_cases hg : 0 < o.quantity ∧ 0 < bs.orders.size
    · rw [if_pos hg]
      by_cases h1 : o.side = Buy ∧ o.price < (heapPop bs).1.price
      · rw [if_pos h1]
        exact ⟨rfl, rfl⟩
      · rw [if_neg h1]
        by_cases h2 : o.side = Sell ∧ (heapPop bs).1.price < o.price
        · rw [if_pos h2]
          exact ⟨rfl, rfl⟩
        · rw [if_neg h2]
          exact ih _ _
    · rw [if_neg hg]
      exact ⟨rfl, rfl⟩

theorem match_trades_eq (ob : OrderBook) (o : Order) :
    (ob.Match o).2.2 =
      (matchLoop ((if o.side = Buy then ob.asks else ob.bids).orders.size + 1) o
        (if o.side = Buy then ob.asks else ob.bids)).2.2 := rfl

theorem match_taker_eq (ob : OrderBook) (o : Order) :
    (ob.Match o).2.1 =
      (matchLoop ((if o.side = Buy then ob.asks else ob.bids).orders.size + 1) o
        (if o.side = Buy then ob.asks else ob.bids)).1 := rfl

theorem match_book_eq (ob : OrderBook) (o : Order) :
    (ob.Match o).1 =
      OrderBook.rest
        (if o.side = Buy then
          { ob with asks := (matchLoop ((if o.side = Buy then ob.asks else ob.bids).orders.size + 1) o
              (if o.side = Buy then ob.asks else ob.bids)).2.1 }
        else
          { ob with bids := (matchLoop ((if o.side = Buy then ob.asks else ob.bids).orders.size + 1) o
              (if o.side = Buy then ob.asks else ob.bids)).2.1 })
        (matchLoop ((if o.side = Buy then ob.asks else ob.bids).orders.size + 1) o
          (if o.side = Buy then ob.asks else ob.bids)).1 := rfl

theorem matchLoop_singleton_break (fuel : Nat) (o m : Order) (sd : Side)
    (hq : 0 < o.quantity)
    (hbr : (o.side = Buy ∧ o.price < m.price) ∨ (o.side = Sell ∧ m.price < o.price)) :
    matchLoop (fuel + 1) o ⟨sd, #[m]⟩ = (o, ⟨sd, #[m]⟩, []) := by
  have hg : 0 < o.quantity ∧ 0 < (PriceHeap.orders ⟨sd, #[m]⟩).size := ⟨hq, by simp⟩
  simp only [matchLoop, if_pos hg, heapPop_singleton, heapPush_empty]
  rcases hbr with h | h
  · rw [if_pos h]
  · have h1 : ¬(o.side = Buy ∧ o.price < m.price) := by
      intro hc
      rw [hc.1] at h
      exact absurd h.1 (by decide)
    rw [if_neg h1, if_pos h]

theorem matchLoop_singleton_cross (fuel : Nat) (o m : Order) (sd : Side)
    (hq : 0 < o.quantity)
    (h1 : ¬(o.side = Buy ∧ o.price < m.price))
    (h2 : ¬(o.side = Sell ∧ m.price < o.price)) :
    matchLoop (fuel + 1) o ⟨sd, #[m]⟩ =
      ({ o with quantity := o.quantity - goMin o.quantity m.quantity },
       (if 0 < m.quantity - goMin o.quantity m.quantity then
          (⟨sd, #[{ m with quantity := m.quantity - goMin o.quantity m.quantity }]⟩ : PriceHeap)
        else ⟨sd, #[]⟩),
       [mkTakerTrade o.id o.userId o.symbol o.side m (goMin o.quantity m.quantity),
        mkMakerTrade m (goMin o.quantity m.quantity)]) := by
  have hg : 0 < o.quantity ∧ 0 < (PriceHeap.orders ⟨sd, #[m]⟩).size := ⟨hq, by simp⟩
  simp only [matchLoop, if_pos hg, heapPop_singleton, heapPush_empty, if_neg h1, if_neg h2]
  have hrec :
      matchLoop fuel { o with quantity := o.quantity - goMin o.quantity m.quantity }
        (if 0 < m.quantity - goMin o.quantity m.quantity then
          (⟨sd, #[{ m with quantity := m.quantity - goMin o.quantity m.quantity }]⟩ : PriceHeap)
        else ⟨sd, #[]⟩) =
      ({ o with quantity := o.quantity - goMin o.quantity m.quantity },
       (if 0 < m.quantity - goMin o.quantity m.quantity then
          (⟨sd, #[{ m with quantity := m.quantity - goMin o.quantity m.quantity }]⟩ : PriceHeap)
        else ⟨sd, #[]⟩), []) := by
    apply matchLoop_stop
    unfold goMin
    by_cases hlt : o.quantity < m.quantity
    · left
      simp [hlt]
    · right
      have : ¬(0 < m.quantity - m.quantity) := by simp
      simp [hlt, this]
  rw [hrec]
  rfl

theorem matchLoop_stepShape (fuel : Nat) :
    ∀ (o : Order) (bs : PriceHeap),
      StepShape o.id o.userId o.symbol o.side o.quantity
        (matchLoop fuel o bs).2.2 := by
  induction fuel with
  | zero => exact fun o bs => StepShape.nil _
  | succ n ih =>
    intro o bs
    simp only [matchLoop]
    by_cases hg : 0 < o.quantity ∧ 0 < bs.orders.size
    · rw [if_pos hg]
      by_cases h1 : o.side = Buy ∧ o.price < (heapPop bs).1.price
      · rw [if_pos h1]
        exact StepShape.nil _
      · rw [if_neg h1]
        by_cases h2 : o.side = Sell ∧ (heapPop bs).1.price < o.price
        · rw [if_pos h2]
          exact StepShape.nil _
        · rw [if_neg h2]
          exact StepShape.step o.quantity (heapPop bs).1 _
            (ih { o with quantity := o.quantity - goMin o.quantity (heapPop bs).1.quantity } _)
    · rw [if_neg hg]
      exact StepShape.nil _

theorem s1_first_match :
    (OrderBook.new "BTCUSDT").Match Inputs.s1Sell =
      (Inputs.s1Book, Inputs.s1Sell, []) := by
  norm_num +decide [OrderBook.Match, OrderBook.rest, OrderBook.new, PriceHeap.new,
    Inputs.s1Sell, Inputs.s1Book, Sell, Buy, Limit, IOC, Submitted, matchLoop,
    heapPush, siftUp, siftUpGo, swapIdx]

theorem s1_second_match :
    (Inputs.s1Book.Match Inputs.s1Buy).2.2 =
      [⟨0, 2, 1, 30000, 200, "BTCUSDT", Buy, false⟩,
       ⟨0, 1, 1, 30000, 100, "BTCUSDT", Sell, true⟩] := by
  rw [match_trades_eq]
  have hside : Inputs.s1Buy.side = Buy := rfl
  simp only [if_pos hside]
  show (matchLoop (1 + 1) Inputs.s1Buy ⟨Sell, #[Inputs.s1Sell]⟩).2.2 = _
  rw [matchLoop_singleton_cross 1 Inputs.s1Buy Inputs.s1Sell Sell (by decide)
    (by decide) (by decide)]
  norm_num [mkTakerTrade, mkMakerTrade, goMin, Inputs.s1Sell, Inputs.s1Buy]

end Engine

section MatchClaims

open Domain Engine

/-- C6: inside OrderBook.Match every step trades min(taker remaining, maker
remaining), appends exactly two records, taker-side first then maker-side,
both at the maker's resting price (the StepShape conjunct, for every fuel,
taker and heap); and scenario S1 concretely: SELL 1 at 30000 then BUY 1 at
31000 yields no trades for the maker submission, the maker rests, and the
taker submission yields exactly two trades at price 30000 and qty 1, the
taker record (is_maker false) first. -/
theorem match_step_pairs_and_s1 :
    (∀ (fuel : Nat) (o : Order) (bs : PriceHeap),
      StepShape o.id o.userId o.symbol o.side o.quantity
        (matchLoop fuel o bs).2.2) ∧
    (OrderBook.new "BTCUSDT").Match Inputs.s1Sell =
      (Inputs.s1Book, Inputs.s1Sell, []) ∧
    (Inputs.s1Book.Match Inputs.s1Buy).2.2 =
      [⟨0, 2, 1, 30000, 200, "BTCUSDT", Buy, false⟩,
       ⟨0, 1, 1, 30000, 100, "BTCUSDT", Sell, true⟩] :=
  ⟨matchLoop_stepShape, s1_first_match, s1_second_match⟩

/-- C6 witness: the claim theorem applied at scenario S1's concrete inputs. -/
theorem match_step_pairs_and_s1_witness :
    (Inputs.s1Book.Match Inputs.s1Buy).2.2 =
      [⟨0, 2, 1, 30000, 200, "BTCUSDT", Buy, false⟩,
       ⟨0, 1, 1, 30000, 100, "BTCUSDT", Sell, true⟩] :=
  match_step_pairs_and_s1.2.2

/-- C2 counterexample: a MARKET taker with remaining quantity is NOT
discarded; submitted to an empty book it produces no trades and rests on its
own side, because the source only excludes IOC from resting. -/
theorem match_market_remainder_rests_cex :
    ((OrderBook.new "BTCUSDT").Match Inputs.mktBuy).2.2 = [] ∧
    ((OrderBook.new "BTCUSDT").Match Inputs.mktBuy).1.bids.orders =
      #[Inputs.mktBuy] := by
  decide

/-- C2 amended: after the loop the taker rests on its own side iff it has
remaining quantity and its type is not IOC (MARKET remainders rest too); and
an IOC taker against an empty opposing queue produces zero trades and leaves
the book unchanged. -/
theorem match_rest_policy_ioc_only (ob : OrderBook) (o : Order) :
    ((if o.side = Buy then (ob.Match o).1.bids else (ob.Match o).1.asks) =
      (if 0 < (ob.Match o).2.1.quantity ∧ (ob.Match o).2.1.type ≠ IOC then
        heapPush (if o.side = Buy then ob.bids else ob.asks) (ob.Match o).2.1
      else (if o.side = Buy then ob.bids else ob.asks))) ∧
    (o.type = IOC → (if o.side = Buy then ob.asks else ob.bids).orders.size = 0 →
      ob.Match o = (ob, o, [])) := by
  constructor
  · by_cases hside : o.side = Buy
    · simp only [OrderBook.Match, if_pos hside, OrderBook.rest]
      have hs2 : (matchLoop (ob.asks.orders.size + 1) o ob.asks).1.side = Buy :=
        (matchLoop_taker_invariants _ o _).1.trans hside
      by_cases hrest :
          0 < (matchLoop (ob.asks.orders.size + 1) o ob.asks).1.quantity ∧
          (matchLoop (ob.asks.orders.size + 1) o ob.asks).1.type ≠ IOC
      · simp only [if_pos hrest, if_pos hs2]
      · simp only [if_neg hrest]
    · simp only [OrderBook.Match, if_neg hside, OrderBook.rest]
      have hs2 : ¬(matchLoop (ob.bids.orders.size + 1) o ob.bids).1.side = Buy := by
        rw [(matchLoop_taker_invariants _ o _).1]
        exact hside
      by_cases hrest :
          0 < (matchLoop (ob.bids.orders.size + 1) o ob.bids).1.quantity ∧
          (matchLoop (ob.bids.orders.size + 1) o ob.bids).1.type ≠ IOC
      · simp only [if_pos hrest, if_neg hs2]
      · simp only [if_neg hrest]
  · intro hioc hempty
    have hrest : ∀ o2 : Order, o2.type = o.type →
        ¬(0 < o2.quantity ∧ o2.type ≠ IOC) := by
      intro o2 h2 hc
      exact hc.2 (h2.trans hioc)
    by_cases hside : o.side = Buy
    · rw [if_pos hside] at hempty
      simp only [OrderBook.Match, if_pos hside,
        matchLoop_stop (ob.asks.orders.size + 1) o ob.asks (Or.inr hempty),
        OrderBook.rest]
      rw [if_neg (hrest o rfl)]
    · rw [if_neg hside] at hempty
      simp only [OrderBook.Match, if_neg hside,
        matchLoop_stop (ob.bids.orders.size + 1) o ob.bids (Or.inr hempty),
        OrderBook.rest]
      rw [if_neg (hrest o rfl)]

/-- C2 witness: an IOC BUY against an empty book is a no-op. -/
theorem match_rest_policy_ioc_only_witness :
    (OrderBook.new "BTCUSDT").Match Inputs.iocBuy =
      (OrderBook.new "BTCUSDT", Inputs.iocBuy, []) :=
  (match_rest_policy_ioc_only (OrderBook.new "BTCUSDT") Inputs.iocBuy).2 rfl rfl

/-- C3 counterexample: a MARKET BUY taker with the conventional price 0 does
NOT cross a resting ask at price 100: the price check is applied to it like
to any LIMIT order, so no trade happens although opposing liquidity exists. -/
theorem match_market_price_check_cex :
    Inputs.askBook.asks.orders = #[Inputs.askMaker] ∧
    (Inputs.askBook.Match Inputs.mktBuyTaker).2.2 = [] := by
  decide

/-- C3 amended: the per-maker price check of OrderBook.Match depends only on
the two prices and the taker side, never on the order type: against a single
resting ask, any BUY taker (LIMIT, MARKET or IOC alike) trades iff its price
is at least the maker's price; with a lower price (such as the conventional 0
of MARKET/IOC) it produces no trades. -/
theorem match_price_check_type_independent (sym : String) (maker taker : Order)
    (hside : taker.side = Buy) (htq : 0 < taker.quantity)
    (hmq : 0 < maker.quantity) :
    (taker.price < maker.price →
      ((⟨sym, PriceHeap.new Buy, ⟨Sell, #[maker]⟩⟩ : OrderBook).Match taker).2.2 =
        []) ∧
    (maker.price ≤ taker.price →
      ((⟨sym, PriceHeap.new Buy, ⟨Sell, #[maker]⟩⟩ : OrderBook).Match taker).2.2 =
        [mkTakerTrade taker.id taker.userId taker.symbol taker.side maker
          (goMin taker.quantity maker.quantity),
         mkMakerTrade maker (goMin taker.quantity maker.quantity)]) := by
  constructor
  · intro hlt
    rw [match_trades_eq]
    simp only [if_pos hside]
    show (matchLoop (1 + 1) taker ⟨Sell, #[maker]⟩).2.2 = _
    rw [matchLoop_singleton_break 1 taker maker Sell htq (Or.inl ⟨hside, hlt⟩)]
  · intro hle
    rw [match_trades_eq]
    simp only [if_pos hside]
    show (matchLoop (1 + 1) taker ⟨Sell, #[maker]⟩).2.2 = _
    have h1 : ¬(taker.side = Buy ∧ taker.price < maker.price) := by
      intro hc
      exact absurd hc.2 (not_lt.mpr hle)
    have h2 : ¬(taker.side = Sell ∧ maker.price < taker.price) := by
      intro hc
      have := hside.symm.trans hc.1
      exact absurd this (by decide)
    rw [matchLoop_singleton_cross 1 taker maker Sell htq h1 h2]

/-- C3 witness: the amended theorem at the concrete maker (ask at 100) and a
MARKET BUY taker at price 0: zero trades. -/
theorem match_price_check_type_independent_witness :
    (Inputs.askBook.Match Inputs.mktBuyTaker).2.2 = [] :=
  (match_price_check_type_independent "BTCUSDT" Inputs.askMaker
    Inputs.mktBuyTaker rfl (by decide) (by decide)).1 (by decide)

end MatchClaims

/-! ### Helper lemmas about the memory books -/

section BookLemmas

open Domain Memory

theorem goAbs_eq_abs (v : ℚ) : goAbs v = |v| := by
  unfold goAbs
  by_cases h : v < 0
  · rw [if_pos h, abs_of_neg h]
  · rw [if_neg h, abs_of_nonneg (not_lt.mp h)]

theorem positionBook_get_save_self (b : PositionBook) (p : Position) :
    (b.save p).get p.userId p.symbol = some p := by
  simp [PositionBook.save, PositionBook.get, List.lookup]

theorem lookup_map_replace (l : List (Int × Order)) (id : Int) (o : Order)
    (h : (l.lookup id).isSome) :
    (l.map (fun kv => if kv.1 == id then (kv.1, o) else kv)).lookup id =
      some o := by
  induction l with
  | nil => simp [List.lookup] at h
  | cons kv rest ih =>
    obtain ⟨k, v⟩ := kv
    by_cases hk : k = id
    · subst hk
      simp only [List.map_cons]
      rw [if_pos (beq_self_eq_true k)]
      simp [List.lookup]
    · have hk1 : (k == id) = false := beq_eq_false_iff_ne.mpr hk
      have hk2 : (id == k) = false := beq_eq_false_iff_ne.mpr (Ne.symm hk)
      simp only [List.map_cons]
      rw [if_neg (by simp [hk1])]
      simp only [List.lookup, hk2]
      apply ih
      simpa [List.lookup, hk2] using h

theorem orderBook_get_mutate_self (b : OrderBook) (id : Int) (o : Order)
    (h : (b.get id).isSome) : (b.mutate id o).get id = some o :=
  lookup_map_replace b.orders id o h

end BookLemmas

/-! ### Service-layer claims -/

section ServiceClaims

open Domain Memory Service

/-- C5: LiquidationService.Check returns true iff
margin + (mark - entry) * qty is at most abs(qty) * mark * 0.005, the fixed
maintenance-margin rate. -/
theorem liquidation_check_formula (p : Position) (m : ℚ) :
    LiquidationService.check p m = true ↔
      p.margin + (m - p.entryPrice) * p.qty ≤ |p.qty| * m * (5 / 1000) := by
  simp [LiquidationService.check, MaintenanceMarginRate, goAbs_eq_abs]

/-- C5 witness: scenario S5.  At mark 38000 equity 4000 exceeds the
maintenance margin 380, no liquidation; at mark 35000 equity -2000 is below
350, liquidation fires. -/
theorem liquidation_check_formula_witness :
    LiquidationService.check Inputs.s5Pos 35000 = true ∧
    LiquidationService.check Inputs.s5Pos 38000 ≠ true := by
  constructor
  · exact (liquidation_check_formula Inputs.s5Pos 35000).mpr
      (by norm_num [Inputs.s5Pos])
  · intro hc
    have hval := (liquidation_check_formula Inputs.s5Pos 38000).mp hc
    norm_num [Inputs.s5Pos] at hval

/-- C7: PositionService.OnTrade creates a missing position with
qty = signed_qty, entry_price = price, the given leverage and
margin = abs(signed_qty) * price / leverage; on an existing position with a
same-direction fill it sets the weighted-average entry price, adds the
quantity, and leaves margin (and leverage) unchanged. -/
theorem position_onTrade_contract (book : PositionBook) (u : Int) (s : String)
    (q price lev : ℚ) :
    (book.get u s = none →
      (PositionService.onTrade book u s q price lev).get u s =
        some ⟨u, s, q, price, lev, goAbs q * price / lev⟩) ∧
    (∀ p : Position, book.get u s = some p → p.userId = u → p.symbol = s →
      sameSign p.qty q →
      (PositionService.onTrade book u s q price lev).get u s =
        some { p with
          entryPrice := (p.entryPrice * p.qty + price * q) / (p.qty + q)
          qty := p.qty + q }) := by
  constructor
  · intro h
    unfold PositionService.onTrade
    rw [h]
    exact positionBook_get_save_self book _
  · intro p hp hpu hps _
    unfold PositionService.onTrade
    rw [hp]
    subst hpu
    subst hps
    exact positionBook_get_save_self book _

/-- C7 witness: adding long 2 at 200 to an existing long 2 from 100 moves
the entry price to 150, the quantity to 4, and leaves margin 20 in place. -/
theorem position_onTrade_contract_witness :
    (PositionService.onTrade Inputs.longPosBook 1 "BTCUSDT" 2 200 10).get 1
      "BTCUSDT" = some ⟨1, "BTCUSDT", 4, 150, 10, 20⟩ := by
  have h := (position_onTrade_contract Inputs.longPosBook 1 "BTCUSDT" 2 200
    10).2 Inputs.longPos (by decide) rfl rfl
    (Or.inl ⟨by norm_num [Inputs.longPos], by norm_num⟩)
  rw [h]
  norm_num [Inputs.longPos]

/-- C10: OrderService.OnTrade is only safe when the trade's order id resolves
in the book: a failed lookup still reaches the signed-quantity computation
and dereferences the nil order's Side field (modelled as none); when the
order is present the call completes. -/
theorem order_onTrade_requires_order_present (book : Memory.OrderBook)
    (pb : PositionBook) (t : Trade) :
    (book.get t.orderId = none → OrderService.onTrade book pb t = none) ∧
    (∀ o : Order, book.get t.orderId = some o →
      (OrderService.onTrade book pb t).isSome = true) := by
  constructor
  · intro h
    unfold OrderService.onTrade
    rw [h]
  · intro o h
    unfold OrderService.onTrade
    rw [h]
    rfl

/-- C10 witness: a trade with an order id absent from the book crashes the
handler (none), and the same trade against a book holding the order does
not. -/
theorem order_onTrade_requires_order_present_witness :
    OrderService.onTrade Inputs.openBook Memory.PositionBook.new
      Inputs.strayTrade = none ∧
    (OrderService.onTrade Inputs.openBook Memory.PositionBook.new
      Inputs.halfTrade).isSome = true := by
  constructor
  · exact (order_onTrade_requires_order_present Inputs.openBook
      Memory.PositionBook.new Inputs.strayTrade).1 (by decide)
  · exact (order_onTrade_requires_order_present Inputs.openBook
      Memory.PositionBook.new Inputs.halfTrade).2 Inputs.openOrder (by decide)

/-- C4 counterexample: a fill of 1 against an order of quantity 2 leaves the
order status SUBMITTED, not PART_FILLED: the source sets FILLED when
filled_qty reaches quantity and otherwise assigns no status at all. -/
theorem onTrade_no_partfilled_cex :
    ((OrderService.onTrade Inputs.openBook Memory.PositionBook.new
        Inputs.halfTrade).elim none (fun r => r.1.get 1)) =
      some ⟨1, 7, "BTCUSDT", Buy, Limit, 100, 2, 1, Submitted, 0⟩ ∧
    (Submitted : OrderStatus) ≠ PartFilled := by
  constructor
  · norm_num +decide [OrderService.onTrade, Memory.OrderBook.get,
      Memory.OrderBook.mutate, PositionService.onTrade, Memory.PositionBook.get,
      Memory.PositionBook.save, Memory.PositionBook.key, Memory.PositionBook.new,
      LiquidationService.check, LiquidationService.executeOrder, signedQty,
      goAbs, MaintenanceMarginRate, Inputs.openBook, Inputs.openOrder,
      Inputs.halfTrade, Buy, Sell, Limit, Filled, Submitted, List.lookup,
      Option.elim, List.filter, List.map]
  · decide

/-- C4 amended: when the trade's order id is present, OnTrade adds the trade
quantity to filled_qty, sets status to FILLED once filled_qty reaches
quantity, and otherwise leaves the status unchanged (PART_FILLED is never
assigned). -/
theorem onTrade_status_update (book : Memory.OrderBook) (pb : PositionBook)
    (t : Trade) (o : Order) (h : book.get t.orderId = some o) :
    (OrderService.onTrade book pb t).elim none (fun r => r.1.get t.orderId) =
      some { o with
        filledQty := o.filledQty + t.qty
        status := if o.quantity ≤ o.filledQty + t.qty then Filled
          else o.status } := by
  unfold OrderService.onTrade
  rw [h]
  simp only [Option.elim]
  exact orderBook_get_mutate_self book t.orderId _ (by rw [h]; rfl)

/-- C4 witness: the amended theorem at the concrete half fill; the status
stays SUBMITTED because 1 of 2 is filled. -/
theorem onTrade_status_update_witness :
    ((OrderService.onTrade Inputs.openBook Memory.PositionBook.new
        Inputs.halfTrade).elim none (fun r => r.1.get 1)) =
      some ⟨1, 7, "BTCUSDT", Buy, Limit, 100, 2, 1, Submitted, 0⟩ := by
  have h := onTrade_status_update Inputs.openBook Memory.PositionBook.new
    Inputs.halfTrade Inputs.openOrder (by decide)
  rw [show Inputs.halfTrade.orderId = 1 from rfl] at h
  rw [h]
  norm_num [Inputs.openOrder, Inputs.halfTrade]

end ServiceClaims

/-! ### Durability-layer claims -/

section SnapshotClaims

open Domain Memory Snapshot

theorem orderBook_get_add_self (b : Memory.OrderBook) (o : Order) :
    (b.add o).get o.id = some o := by
  simp [Memory.OrderBook.add, Memory.OrderBook.get, List.lookup]

/-- C1 counterexample: a Publish whose append fails returns an error, yet the
System State differs from the state before the call (the cursor fields are
overwritten and the order is already in the map). -/
theorem publish_failed_append_state_changed_cex :
    (EventBus.publish Inputs.st0 Inputs.es0 Inputs.ev0 false).1 =
      Except.error "failed to write event" ∧
    (EventBus.publish Inputs.st0 Inputs.es0 Inputs.ev0 false).2.1 ≠
      Inputs.st0 := by
  decide

/-- C1 amended: Publish applies the event to the in-memory state before
appending; when the append fails it returns an error but the mutation stays
visible: for an ORDER_CREATED event the state equals applyEvent of the old
state, the carried order is readable from the order map, and last_event_id
and timestamp are overwritten with the event's (pre-assignment) values. -/
theorem publish_failed_append_mutation_visible (st : SystemState)
    (es : EventStore) (o : Order) (id ts : Int) :
    (EventBus.publish st es (Event.new id EventOrderCreated ts
        (EventData.orderCreated (some o))) false).1 ≠ Except.ok () ∧
    (EventBus.publish st es (Event.new id EventOrderCreated ts
        (EventData.orderCreated (some o))) false).2.1 =
      st.applyEvent (Event.new id EventOrderCreated ts
        (EventData.orderCreated (some o))) ∧
    (EventBus.publish st es (Event.new id EventOrderCreated ts
        (EventData.orderCreated (some o))) false).2.1.orderBook.get o.id =
      some o ∧
    (EventBus.publish st es (Event.new id EventOrderCreated ts
        (EventData.orderCreated (some o))) false).2.1.lastEventID = id ∧
    (EventBus.publish st es (Event.new id EventOrderCreated ts
        (EventData.orderCreated (some o))) false).2.1.timestamp = ts := by
  have happ : ∀ st2 : SystemState,
      st2.applyEvent (Event.new id EventOrderCreated ts
        (EventData.orderCreated (some o))) =
      { st2 with
        orderBook := st2.orderBook.add o
        lastEventID := id
        timestamp := ts } := by
    intro st2
    rfl
  by_cases hc : es.closed
  · unfold EventBus.publish EventStore.append
    rw [if_pos hc]
    refine ⟨by simp, rfl, ?_, ?_, ?_⟩
    · rw [happ]
      exact orderBook_get_add_self st.orderBook o
    · rw [happ]
    · rw [happ]
  · unfold EventBus.publish EventStore.append
    rw [if_neg hc, if_neg (Bool.false_ne_true)]
    refine ⟨by simp, rfl, ?_, ?_, ?_⟩
    · rw [happ]
      exact orderBook_get_add_self st.orderBook o
    · rw [happ]
    · rw [happ]

/-- C1 witness: the amended theorem at the concrete initial state: after the
failed publish the created order is visible in the order map. -/
theorem publish_failed_append_mutation_visible_witness :
    (EventBus.publish Inputs.st0 Inputs.es0 Inputs.ev0 false).2.1.orderBook.get
      11 = some Inputs.evOrder :=
  (publish_failed_append_mutation_visible Inputs.st0 Inputs.es0 Inputs.evOrder
    0 99).2.2.1

theorem readFrom_ok_of_verify (log : List Event) (sid : Int)
    (h : ∀ e ∈ log, e.verify = true) :
    ∃ es, EventStore.readFrom log sid = Except.ok es ∧ ∀ e ∈ es, e ∈ log := by
  induction log with
  | nil => exact ⟨[], rfl, by simp⟩
  | cons e rest ih =>
    obtain ⟨es, hes, hmem⟩ := ih (fun x hx => h x (List.mem_cons_of_mem _ hx))
    refine ⟨if sid < e.id then e :: es else es, ?_, ?_⟩
    · unfold EventStore.readFrom
      rw [if_pos (h e (List.mem_cons_self _ _)), hes]
    · intro x hx
      by_cases hlt : sid < e.id
      · rw [if_pos hlt] at hx
        rcases List.mem_cons.mp hx with hx | hx
        · exact hx ▸ List.mem_cons_self _ _
        · exact List.mem_cons_of_mem _ (hmem x hx)
      · rw [if_neg hlt] at hx
        exact List.mem_cons_of_mem _ (hmem x hx)

theorem verify_of_readFrom_ok (log : List Event) (sid : Int) (es : List Event)
    (h : EventStore.readFrom log sid = Except.ok es) :
    ∀ e ∈ log, e.verify = true := by
  induction log generalizing es with
  | nil => simp
  | cons e2 rest ih =>
    unfold EventStore.readFrom at h
    by_cases hv : e2.verify = true
    · rw [if_pos hv] at h
      intro x hx
      rcases List.mem_cons.mp hx with hx | hx
      · exact hx ▸ hv
      · rcases hrec : EventStore.readFrom rest sid with m | es2
        · rw [hrec] at h
          exact absurd h (by simp)
        · exact ih es2 hrec x hx
    · rw [if_neg hv] at h
      exact absurd h (by simp)

theorem verifySnapshotsLoop_ok (all : List Snapshot) (l : List Snapshot)
    (hsub : ∀ s ∈ l, s ∈ all) :
    verifySnapshotsLoop all l = Except.ok () := by
  induction l with
  | nil => rfl
  | cons s rest ih =>
    have hmem : s ∈ all := hsub s (List.mem_cons_self _ _)
    have hfind : (all.find? (fun s2 => s2.sequenceID == s.sequenceID)).isSome := by
      rw [List.find?_isSome]
      exact ⟨s, hmem, by simp⟩
    obtain ⟨s2, hs2⟩ := Option.isSome_iff_exists.mp hfind
    unfold verifySnapshotsLoop SnapshotManager.loadBySequence
      SnapshotManager.loadSnapshot
    rw [hs2]
    exact ih (fun x hx => hsub x (List.mem_cons_of_mem _ hx))

/-- C9 counterexample: a retained snapshot whose stored checksum does not
match its recomputed state checksum is not reported: Verify returns no error,
because loadSnapshot never recomputes the checksum. -/
theorem verify_ignores_snapshot_checksum_cex :
    Inputs.badSnap.checksum ≠ Inputs.badSnap.recomputedChecksum ∧
    ReplayEngine.verify Inputs.goodLog [Inputs.badSnap] = Except.ok () := by
  decide

/-- C9 amended: ReplayEngine.Verify returns no error iff every event in the
log passes checksum verification; the retained snapshots are only loaded,
their stored checksums are never recomputed or compared, so snapshot
corruption is not surfaced. -/
theorem verify_error_iff_event_checksum (log : List Event)
    (snaps : List Snapshot) :
    ReplayEngine.verify log snaps = Except.ok () ↔
      ∀ e ∈ log, e.verify = true := by
  constructor
  · intro h
    unfold ReplayEngine.verify at h
    rcases hread : EventStore.readAll log with m | es
    · rw [hread] at h
      exact absurd h (by simp)
    · exact verify_of_readFrom_ok log 0 es hread
  · intro h
    obtain ⟨es, hes, hmem⟩ := readFrom_ok_of_verify log 0 h
    unfold ReplayEngine.verify EventStore.readAll
    rw [hes]
    have hfind : es.find? (fun e => !e.verify) = none := by
      rw [List.find?_eq_none]
      intro x hx
      simp [h x (hmem x hx)]
    show (match es.find? (fun e => !e.verify) with
      | some _ => (Except.error "event failed checksum verification" :
          Except String Unit)
      | none => verifySnapshotsLoop snaps snaps) = Except.ok ()
    rw [hfind]
    exact verifySnapshotsLoop_ok snaps snaps (fun s hs => hs)

/-- C9 witness: the amended theorem at a concrete intact log (the snapshot
set plays no role). -/
theorem verify_error_iff_event_checksum_witness :
    ReplayEngine.verify Inputs.goodLog [] = Except.ok () :=
  (verify_error_iff_event_checksum Inputs.goodLog []).mpr (by decide)

end SnapshotClaims

/-! ### Position reachability invariants -/

section PositionInvariants

open Domain Memory Service

theorem position_lookup_mem (l : List (String × Position)) (k : String)
    (p : Position) (h : l.lookup k = some p) : (k, p) ∈ l := by
  induction l with
  | nil => simp [List.lookup] at h
  | cons kv rest ih =>
    obtain ⟨k2, v⟩ := kv
    by_cases hk : k == k2
    · have heq : k = k2 := eq_of_beq hk
      unfold List.lookup at h
      rw [hk] at h
      obtain rfl : v = p := by injection h
      rw [heq]
      exact List.mem_cons_self _ _
    · have hk2 : (k == k2) = false := Bool.not_eq_true _ ▸ eq_false_of_ne_true hk
      unfold List.lookup at h
      rw [hk2] at h
      exact List.mem_cons_of_mem _ (ih h)

theorem save_mem_cases (b : PositionBook) (p : Position) (kv : String × Position)
    (h : kv ∈ (b.save p).positions) :
    kv = (PositionBook.key p.userId p.symbol, p) ∨ kv ∈ b.positions := by
  unfold PositionBook.save at h
  rcases List.mem_cons.mp h with h | h
  · exact Or.inl h
  · exact Or.inr (List.mem_of_mem_filter h)

theorem onTrade_margin_nonneg (b : PositionBook) (f : Fill) (hgood : f.good)
    (hb : ∀ kv ∈ b.positions, 0 ≤ kv.2.margin) :
    ∀ kv ∈ (PositionService.onTrade b f.userId f.symbol f.qty f.price
      f.leverage).positions, 0 ≤ kv.2.margin := by
  intro kv hkv
  unfold PositionService.onTrade at hkv
  rcases hget : b.get f.userId f.symbol with _ | p
  · rw [hget] at hkv
    rcases save_mem_cases _ _ _ hkv with h | h
    · rw [h]
      exact div_nonneg
        (mul_nonneg (goAbs_eq_abs f.qty ▸ abs_nonneg f.qty) (le_of_lt hgood.1))
        (le_of_lt hgood.2.1)
    · exact hb kv h
  · rw [hget] at hkv
    rcases save_mem_cases _ _ _ hkv with h | h
    · rw [h]
      exact hb (PositionBook.key f.userId f.symbol, p)
        (position_lookup_mem _ _ _ hget)
    · exact hb kv h

theorem applyFills_margin_inv (fills : List Fill) :
    ∀ b : PositionBook, (∀ f ∈ fills, f.good) →
      (∀ kv ∈ b.positions, 0 ≤ kv.2.margin) →
      ∀ kv ∈ (applyFills b fills).positions, 0 ≤ kv.2.margin := by
  induction fills with
  | nil => exact fun b _ hb => hb
  | cons f fs ih =>
    intro b hgood hb
    exact ih _ (fun g hg => hgood g (List.mem_cons_of_mem _ hg))
      (onTrade_margin_nonneg b f (hgood f (List.mem_cons_self _ _)) hb)

theorem onTrade_samedir_inv (b : PositionBook) (f : Fill) (hgood : f.good)
    (hdir : ∀ p, b.get f.userId f.symbol = some p → sameSign p.qty f.qty)
    (hb : ∀ kv ∈ b.positions,
      kv.2.qty ≠ 0 ∧ 0 < kv.2.entryPrice ∧ 0 ≤ kv.2.margin) :
    ∀ kv ∈ (PositionService.onTrade b f.userId f.symbol f.qty f.price
      f.leverage).positions,
      kv.2.qty ≠ 0 ∧ 0 < kv.2.entryPrice ∧ 0 ≤ kv.2.margin := by
  intro kv hkv
  unfold PositionService.onTrade at hkv
  rcases hget : b.get f.userId f.symbol with _ | p
  · rw [hget] at hkv
    rcases save_mem_cases _ _ _ hkv with h | h
    · rw [h]
      refine ⟨hgood.2.2, hgood.1, ?_⟩
      exact div_nonneg
        (mul_nonneg (goAbs_eq_abs f.qty ▸ abs_nonneg f.qty) (le_of_lt hgood.1))
        (le_of_lt hgood.2.1)
    · exact hb kv h
  · rw [hget] at hkv
    rcases save_mem_cases _ _ _ hkv with h | h
    · have hp := hb (PositionBook.key f.userId f.symbol, p)
        (position_lookup_mem _ _ _ hget)
      have hss := hdir p hget
      rw [h]
      rcases hss with ⟨hpq, hfq⟩ | ⟨hpq, hfq⟩
      · refine ⟨?_, ?_, hp.2.2⟩
        · exact ne_of_gt (add_pos hpq hfq)
        · exact div_pos
            (add_pos (mul_pos hp.2.1 hpq) (mul_pos hgood.1 hfq))
            (add_pos hpq hfq)
      · refine ⟨?_, ?_, hp.2.2⟩
        · exact ne_of_lt (add_neg hpq hfq)
        · rw [div_pos_iff]
          exact Or.inr ⟨add_neg (mul_neg_of_pos_of_neg hp.2.1 hpq)
            (mul_neg_of_pos_of_neg hgood.1 hfq), add_neg hpq hfq⟩
    · exact hb kv h

theorem applyFills_samedir_inv (fills : List Fill) :
    ∀ b : PositionBook, SameDirTrace b fills →
      (∀ kv ∈ b.positions,
        kv.2.qty ≠ 0 ∧ 0 < kv.2.entryPrice ∧ 0 ≤ kv.2.margin) →
      ∀ kv ∈ (applyFills b fills).positions,
        kv.2.qty ≠ 0 ∧ 0 < kv.2.entryPrice ∧ 0 ≤ kv.2.margin := by
  induction fills with
  | nil => exact fun b _ hb => hb
  | cons f fs ih =>
    intro b htrace hb
    cases htrace with
    | cons _ _ _ hgood hdir htail =>
      exact ih _ htail (onTrade_samedir_inv b f hgood hdir hb)

/-- C8 counterexample: two fills that satisfy the claimed side conditions
(price positive, leverage positive, signed quantity nonzero) but whose second
fill is opposite to the open direction drive the position to qty -1 with a
negative entry price -80, violating the claimed invariant. -/
theorem position_invariant_flip_cex :
    (∀ f ∈ Inputs.flipFills, f.good) ∧
    (applyFills Memory.PositionBook.new Inputs.flipFills).get 1 "BTCUSDT" =
      some ⟨1, "BTCUSDT", -1, -80, 10, 10⟩ ∧
    (-1 : ℚ) ≠ 0 ∧ ¬(0 < (-80 : ℚ)) := by
  refine ⟨by decide, ?_, by norm_num, by norm_num⟩
  norm_num +decide [applyFills, PositionService.onTrade, Memory.PositionBook.get,
    Memory.PositionBook.save, Memory.PositionBook.key, Memory.PositionBook.new,
    goAbs, Inputs.flipFills, List.lookup, List.foldl, List.filter,
    Fill.good]

/-- C8 amended: for every position reachable from an empty book by
PositionService.OnTrade calls with price positive, leverage positive and
nonzero signed quantity, margin stays nonnegative; if moreover every fill
that lands on an existing position is in the same direction as that position
(the only case the spec keeps in scope), then entry_price is positive
whenever qty is nonzero.  Without the same-direction restriction the entry
price can turn negative, as the counterexample shows. -/
theorem position_invariant_same_direction :
    (∀ fills : List Fill, (∀ f ∈ fills, f.good) →
      ∀ kv ∈ (applyFills Memory.PositionBook.new fills).positions,
        0 ≤ kv.2.margin) ∧
    (∀ fills : List Fill, SameDirTrace Memory.PositionBook.new fills →
      ∀ kv ∈ (applyFills Memory.PositionBook.new fills).positions,
        0 ≤ kv.2.margin ∧ (kv.2.qty ≠ 0 → 0 < kv.2.entryPrice)) := by
  constructor
  · intro fills hgood
    exact applyFills_margin_inv fills Memory.PositionBook.new hgood
      (by simp [Memory.PositionBook.new])
  · intro fills htr kv hkv
    have h := applyFills_samedir_inv fills Memory.PositionBook.new htr
      (by simp [Memory.PositionBook.new]) kv hkv
    exact ⟨h.2.2, fun _ => h.2.1⟩

/-- C8 witness: a same-direction trace of two longs; the resulting position
keeps a nonnegative margin and a positive entry price. -/
theorem position_invariant_same_direction_witness :
    0 ≤ (((applyFills Memory.PositionBook.new Inputs.longFills).get 1
      "BTCUSDT").getD default).margin ∧
    0 < (((applyFills Memory.PositionBook.new Inputs.longFills).get 1
      "BTCUSDT").getD default).entryPrice := by
  have hfirst : (PositionService.onTrade Memory.PositionBook.new 1 "BTCUSDT" 1
      100 10).get 1 "BTCUSDT" = some ⟨1, "BTCUSDT", 1, 100, 10, 10⟩ := by
    norm_num +decide [PositionService.onTrade, Memory.PositionBook.get,
      Memory.PositionBook.save, Memory.PositionBook.key,
      Memory.PositionBook.new, goAbs, List.lookup, List.filter]
  have hsd : SameDirTrace Memory.PositionBook.new Inputs.longFills := by
    refine SameDirTrace.cons _ _ _ (by decide) (fun p hp => ?_)
      (SameDirTrace.cons _ _ _ (by decide) (fun p hp => ?_)
        (SameDirTrace.nil _))
    · simp [Memory.PositionBook.new, Memory.PositionBook.get, List.lookup] at hp
    · have hp2 : (PositionService.onTrade Memory.PositionBook.new 1 "BTCUSDT" 1
          100 10).get 1 "BTCUSDT" = some p := hp
      rw [hfirst] at hp2
      obtain rfl : Position.mk 1 "BTCUSDT" 1 100 10 10 = p := by injection hp2
      exact Or.inl ⟨by norm_num, by norm_num⟩
  have hget : (applyFills Memory.PositionBook.new Inputs.longFills).get 1
      "BTCUSDT" = some ⟨1, "BTCUSDT", 3, 500 / 3, 10, 10⟩ := by
    norm_num +decide [applyFills, PositionService.onTrade,
      Memory.PositionBook.get, Memory.PositionBook.save, Memory.PositionBook.key,
      Memory.PositionBook.new, goAbs, Inputs.longFills, List.lookup, List.foldl,
      List.filter]
  have h := position_invariant_same_direction.2 Inputs.longFills hsd
  have hkv := h _ (position_lookup_mem _ _ _ hget)
  simp only [hget, Option.getD_some]
  exact ⟨hkv.1, hkv.2 (by norm_num)⟩

end PositionInvariants

end Oms
